import Mathlib

/-!
Verification development for the olive node-graph core.

The repository excerpt under verification contains the UI glue of a
non-linear video editor (main-window docking layout in
`src/app/window/mainwindow/mainwindow.cpp`, a graphics-view wrapper in
`src/app/widget/nodeview/nodeview.h`, and a menu helper in
`src/app/widget/menu/menu.h`).  The node-graph engine itself
(`NodeGraph`, `NodeInput::ConnectEdge`, `ViewerOutput`, `SolidGenerator`,
the evaluator) is referenced by that code but its implementation is not
part of the excerpt; the specification reconstructs its required
behaviour.  Accordingly the graph core below is modelled from the
specification text, while `ProjectOpen` at the end of the file is
embedded directly from `mainwindow.cpp`.
-/

/-- Modelled from the spec: declared value type of a port (the
implementation of the port model is missing from the excerpt).  The spec
names texture/image, scalar and string as example types. -/
inductive ValueType
  | texture
  | scalar
  | string
deriving DecidableEq, Repr

/-- Modelled from the spec: a runtime value flowing along edges. -/
inductive Value
  | texture (data : Nat)
  | scalar (n : Int)
  | str (s : String)
deriving DecidableEq, Repr

/-- Modelled from the spec: an input port has a declared value type and
optionally a default literal value (an input holds at most one incoming
edge OR a default literal, possibly neither). -/
structure InputPort where
  vtype : ValueType
  defaultValue : Option Value
deriving DecidableEq, Repr

/-- Modelled from the spec: an output port has a declared value type. -/
structure OutputPort where
  vtype : ValueType
deriving DecidableEq, Repr

/-- Modelled from the spec: the failure cause of a node computation. -/
inductive RunError
  | malformedInput
  | badArity
deriving DecidableEq, Repr

/-- Modelled from the spec: the closed set of node kinds (tagged-variant
design, spec section 9).  `solidGenerator`, `viewerOutput` and
`imageInput` correspond to the node classes instantiated by the test code
of `MainWindow::ProjectOpen`; `filter1`, `compositor2`, `scalarConst` and
`mixer` are generic one-input filters, two-input compositors and
scalar-typed nodes needed to express the spec scenarios (diamond graphs,
type mismatches). -/
inductive NodeKind
  | solidGenerator (color : Nat)
  | viewerOutput
  | imageInput (loaded : Bool)
  | filter1
  | compositor2
  | scalarConst (n : Int)
  | mixer
deriving DecidableEq, Repr

/-- Modelled from the spec: the ordered input ports of each node kind. -/
def NodeKind.inputPorts : NodeKind → List InputPort
  | .solidGenerator _ => []
  | .viewerOutput => [⟨ValueType.texture, none⟩]
  | .imageInput _ => []
  | .filter1 => [⟨ValueType.texture, some (Value.texture 0)⟩]
  | .compositor2 =>
      [⟨ValueType.texture, some (Value.texture 0)⟩,
       ⟨ValueType.texture, some (Value.texture 0)⟩]
  | .scalarConst _ => []
  | .mixer => [⟨ValueType.texture, none⟩, ⟨ValueType.scalar, some (Value.scalar 1)⟩]

/-- Modelled from the spec: the ordered output ports of each node kind. -/
def NodeKind.outputPorts : NodeKind → List OutputPort
  | .solidGenerator _ => [⟨ValueType.texture⟩]
  | .viewerOutput => [⟨ValueType.texture⟩]
  | .imageInput _ => [⟨ValueType.texture⟩]
  | .filter1 => [⟨ValueType.texture⟩]
  | .compositor2 => [⟨ValueType.texture⟩]
  | .scalarConst _ => [⟨ValueType.scalar⟩]
  | .mixer => [⟨ValueType.texture⟩]

/-- Modelled from the spec: the computation of each node kind, mapping
resolved input values to output values, one output value per output
port.  An `imageInput` with no loaded file fails with a malformed-input
error; every kind fails on inputs of the wrong shape. -/
def NodeKind.run : NodeKind → List Value → Except RunError (List Value)
  | .solidGenerator c, [] => .ok [Value.texture c]
  | .viewerOutput, [Value.texture t] => .ok [Value.texture t]
  | .imageInput loaded, [] =>
      if loaded then .ok [Value.texture 1] else .error RunError.malformedInput
  | .filter1, [Value.texture t] => .ok [Value.texture (t + 1)]
  | .compositor2, [Value.texture a, Value.texture b] => .ok [Value.texture (a + b)]
  | .scalarConst n, [] => .ok [Value.scalar n]
  | .mixer, [Value.texture t, Value.scalar n] => .ok [Value.texture (t + n.toNat)]
  | _, _ => .error RunError.badArity

/-- Modelled from the spec: a directed edge from an output port to an
input port, stored as id/port-index tuples (spec section 9 design
note). -/
structure Edge where
  srcNode : Nat
  srcPort : Nat
  dstNode : Nat
  dstPort : Nat
deriving DecidableEq, Repr

/-- Modelled from the spec: the error taxonomy of mutation operations. -/
inductive GraphError
  | lookupError
  | typeMismatch
  | cycleError
  | stateConflict
  | notFound
deriving DecidableEq, Repr

/-- Modelled from the spec: the graph state.  `nodes` is the pool of all
constructed nodes keyed by id (the C++ code constructs nodes with `new`
before handing them to the graph), `members` records which ids have been
added to the graph via `AddNode`, `edges` is the edge set and `nextId`
the id counter.  Ids are never reused. -/
structure NodeGraph where
  nodes : List (Nat × NodeKind)
  members : List Nat
  edges : List Edge
  nextId : Nat
deriving DecidableEq, Repr

/-- Modelled from the spec: the empty graph a project session starts
from. -/
def emptyNG : NodeGraph := ⟨[], [], [], 0⟩

/-- Result of a mutation operation: success, or a synchronously returned
error. -/
abbrev MutRes := Except GraphError Unit

/-- Modelled from the spec: node construction.  Mirrors `new Node()` in
the C++ call sites; assigns a fresh id and registers the node in the
pool without adding it to the graph membership. -/
def newNode (g : NodeGraph) (k : NodeKind) : NodeGraph × Nat :=
  ({ g with nodes := (g.nextId, k) :: g.nodes, nextId := g.nextId + 1 }, g.nextId)

/-- Look up a constructed node by id. -/
def findNode (g : NodeGraph) (id : Nat) : Option NodeKind :=
  (g.nodes.find? (fun p => p.1 = id)).map (·.2)

/-- Modelled from the spec: `AddNode` takes ownership of a constructed
node and makes it a graph member; referencing an id that was never
constructed (or was destroyed by `RemoveNode`) fails with NotFound. -/
def AddNode (g : NodeGraph) (id : Nat) : MutRes × NodeGraph :=
  match findNode g id with
  | none => (.error GraphError.notFound, g)
  | some _ =>
      if id ∈ g.members then (.ok (), g)
      else (.ok (), { g with members := id :: g.members })

/-- Modelled from the spec: `RemoveNode` removes the node and every edge
touching any of its ports; on an unknown id it returns a consistent
NotFound error and leaves the graph unchanged. -/
def RemoveNode (g : NodeGraph) (id : Nat) : MutRes × NodeGraph :=
  match findNode g id with
  | none => (.error GraphError.notFound, g)
  | some _ =>
      (.ok (), { g with
        nodes := g.nodes.filter (fun p => ¬ p.1 = id),
        members := g.members.filter (fun m => ¬ m = id),
        edges := g.edges.filter (fun e => ¬ e.srcNode = id ∧ ¬ e.dstNode = id) })

/-- Declared type of an output port, when the node and port exist. -/
def outputPortType (g : NodeGraph) (n p : Nat) : Option ValueType :=
  (findNode g n).bind fun k => (k.outputPorts.get? p).map (·.vtype)

/-- Declared type of an input port, when the node and port exist. -/
def inputPortType (g : NodeGraph) (n p : Nat) : Option ValueType :=
  (findNode g n).bind fun k => (k.inputPorts.get? p).map (·.vtype)

/-- Edges of `E` that do not point into input port `dp` of node `dn`. -/
def dropInto (E : List Edge) (dn dp : Nat) : List Edge :=
  E.filter (fun e => ¬ (e.dstNode = dn ∧ e.dstPort = dp))

/-- One expansion step of the forward-reachability closure: add the
destination of every edge whose source is already in the set. -/
def expandStep (acc : List Nat) (e : Edge) : List Nat :=
  if e.srcNode ∈ acc ∧ e.dstNode ∉ acc then e.dstNode :: acc else acc

/-- Expand a node set once along every edge. -/
def expand (E : List Edge) (s : List Nat) : List Nat :=
  E.foldl expandStep s

/-- Iterate `expand` until a fixpoint (fueled). -/
def reachAux (E : List Edge) : Nat → List Nat → List Nat
  | 0, s => s
  | n + 1, s => if expand E s = s then s else reachAux E n (expand E s)

/-- All nodes reachable forward from `r` through the edges `E`
(including `r` itself).  The fuel suffices to reach the closure
fixpoint. -/
def reachableFrom (E : List Edge) (r : Nat) : List Nat :=
  reachAux E ((r :: E.map (·.dstNode)).dedup.length) [r]

/-- Decidable forward reachability used by the cycle check of
`ConnectEdge`. -/
def reaches (E : List Edge) (a b : Nat) : Bool :=
  decide (b ∈ reachableFrom E a)

/-- Modelled from the spec: `ConnectEdge(outputPort, inputPort)`.  Fails
with LookupError when either port does not exist, with TypeMismatch when
the declared port types are incompatible (the spec states that a
type-mismatched connection always fails with TypeMismatch), and with
CycleError when the source node is forward-reachable from the
destination node through existing edges; on success it replaces any
prior edge into the destination input port.  Per the call site in
`MainWindow::ProjectOpen` (a static `NodeInput::ConnectEdge`), the
operation does not require either endpoint node to be a graph member. -/
def ConnectEdge (g : NodeGraph) (sn sp dn dp : Nat) : MutRes × NodeGraph :=
  match outputPortType g sn sp, inputPortType g dn dp with
  | some tyo, some tyi =>
      if tyo = tyi then
        if reaches g.edges dn sn then (.error GraphError.cycleError, g)
        else (.ok (), { g with edges := ⟨sn, sp, dn, dp⟩ :: dropInto g.edges dn dp })
      else (.error GraphError.typeMismatch, g)
  | _, _ => (.error GraphError.lookupError, g)

/-- Modelled from the spec: `DisconnectEdge(inputPort)` removes the edge
into the given input port if present; referencing a port that does not
exist fails with LookupError. -/
def DisconnectEdge (g : NodeGraph) (dn dp : Nat) : MutRes × NodeGraph :=
  match inputPortType g dn dp with
  | none => (.error GraphError.lookupError, g)
  | some _ => (.ok (), { g with edges := dropInto g.edges dn dp })

/-- A single graph mutation, for describing reachable graph states. -/
inductive GOp
  | newNode (k : NodeKind)
  | addNode (id : Nat)
  | removeNode (id : Nat)
  | connectEdge (sn sp dn dp : Nat)
  | disconnectEdge (dn dp : Nat)
deriving DecidableEq, Repr

/-- Apply one mutation, keeping the post-state whether or not the
operation reported an error. -/
def applyOp (g : NodeGraph) : GOp → NodeGraph
  | .newNode k => (newNode g k).1
  | .addNode id => (AddNode g id).2
  | .removeNode id => (RemoveNode g id).2
  | .connectEdge sn sp dn dp => (ConnectEdge g sn sp dn dp).2
  | .disconnectEdge dn dp => (DisconnectEdge g dn dp).2

/-- Apply a sequence of mutations in order. -/
def applyOps (g : NodeGraph) (ops : List GOp) : NodeGraph :=
  ops.foldl applyOp g

/-- A graph state is reachable when some sequence of mutations produces
it from the empty graph. -/
def ReachableGS (g : NodeGraph) : Prop :=
  ∃ ops, applyOps emptyNG ops = g

/-- One directed step along an edge of `E`. -/
def EStep (E : List Edge) (a b : Nat) : Prop :=
  ∃ e ∈ E, e.srcNode = a ∧ e.dstNode = b

/-- Forward reachability through the edges `E` (reflexive-transitive). -/
def Reaches (E : List Edge) (a b : Nat) : Prop :=
  Relation.ReflTransGen (EStep E) a b

theorem EStep_mono {E E' : List Edge} (h : ∀ e ∈ E, e ∈ E') {a b : Nat} :
    EStep E a b → EStep E' a b :=
  fun ⟨e, he, hsrc, hdst⟩ => ⟨e, h e he, hsrc, hdst⟩

theorem Reaches_mono {E E' : List Edge} (h : ∀ e ∈ E, e ∈ E') {a b : Nat} :
    Reaches E a b → Reaches E' a b :=
  Relation.ReflTransGen.mono (fun _ _ => EStep_mono h)

theorem expand_cons (e : Edge) (E : List Edge) (s : List Nat) :
    expand (e :: E) s = expand E (expandStep s e) := rfl

theorem expandStep_append (s : List Nat) (e : Edge) :
    ∃ l, expandStep s e = l ++ s := by
  unfold expandStep
  split_ifs with h
  · exact ⟨[e.dstNode], rfl⟩
  · exact ⟨[], rfl⟩

theorem expand_append (E : List Edge) (s : List Nat) :
    ∃ l, expand E s = l ++ s := by
  induction E generalizing s with
  | nil => exact ⟨[], rfl⟩
  | cons e E ih =>
    rw [expand_cons]
    obtain ⟨l1, h1⟩ := expandStep_append s e
    obtain ⟨l2, h2⟩ := ih (expandStep s e)
    exact ⟨l2 ++ l1, by rw [h2, h1, List.append_assoc]⟩

theorem subset_expand (E : List Edge) (s : List Nat) : s ⊆ expand E s := by
  obtain ⟨l, h⟩ := expand_append E s
  rw [h]
  exact List.subset_append_right _ _

theorem mem_expandStep {x : Nat} {s : List Nat} {e : Edge}
    (h : x ∈ expandStep s e) : x ∈ s ∨ x = e.dstNode := by
  unfold expandStep at h
  split_ifs at h with hc
  · rcases List.mem_cons.1 h with h | h
    · exact Or.inr h
    · exact Or.inl h
  · exact Or.inl h

theorem mem_expand {x : Nat} {E : List Edge} {s : List Nat}
    (h : x ∈ expand E s) : x ∈ s ∨ ∃ e ∈ E, x = e.dstNode := by
  induction E generalizing s with
  | nil => exact Or.inl h
  | cons e E ih =>
    rw [expand_cons] at h
    rcases ih h with h' | ⟨e', he', hx⟩
    · rcases mem_expandStep h' with h'' | h''
      · exact Or.inl h''
      · exact Or.inr ⟨e, List.mem_cons_self e E, h''⟩
    · exact Or.inr ⟨e', List.mem_cons_of_mem _ he', hx⟩

theorem nodup_expandStep {s : List Nat} (h : s.Nodup) (e : Edge) :
    (expandStep s e).Nodup := by
  unfold expandStep
  split_ifs with hc
  · exact List.nodup_cons.2 ⟨hc.2, h⟩
  · exact h

theorem nodup_expand {E : List Edge} {s : List Nat} (h : s.Nodup) :
    (expand E s).Nodup := by
  induction E generalizing s with
  | nil => exact h
  | cons e E ih => exact ih (nodup_expandStep h e)

theorem expand_sound {E E₀ : List Edge} {r : Nat} {s : List Nat}
    (hE : ∀ e ∈ E, e ∈ E₀) (hs : ∀ x ∈ s, Reaches E₀ r x) :
    ∀ x ∈ expand E s, Reaches E₀ r x := by
  induction E generalizing s with
  | nil => exact hs
  | cons e E ih =>
    rw [expand_cons]
    refine ih (fun e' he' => hE e' (List.mem_cons_of_mem _ he')) ?_
    intro x hx
    unfold expandStep at hx
    split_ifs at hx with hc
    · rcases List.mem_cons.1 hx with h | h
      · subst h
        exact Relation.ReflTransGen.tail (hs _ hc.1)
          ⟨e, hE e (List.mem_cons_self e E), rfl, rfl⟩
      · exact hs x h
    · exact hs x hx

theorem mem_expand_of_edge {E : List Edge} {e : Edge} {s : List Nat}
    (he : e ∈ E) (hs : e.srcNode ∈ s) : e.dstNode ∈ expand E s := by
  induction E generalizing s with
  | nil => cases he
  | cons e' E ih =>
    rw [expand_cons]
    rcases List.mem_cons.1 he with h | h
    · subst h
      have hmem : e.dstNode ∈ expandStep s e := by
        unfold expandStep
        split_ifs with hc
        · exact List.mem_cons_self _ _
        · by_cases hd : e.dstNode ∈ s
          · exact hd
          · exact absurd ⟨hs, hd⟩ hc
      exact subset_expand E _ hmem
    · have hmem : e.srcNode ∈ expandStep s e' := by
        obtain ⟨l, hl⟩ := expandStep_append s e'
        rw [hl]
        exact List.mem_append_right _ hs
      exact ih h hmem

theorem expand_fix_closed {E : List Edge} {s : List Nat}
    (h : expand E s = s) : ∀ e ∈ E, e.srcNode ∈ s → e.dstNode ∈ s :=
  fun e he hs => h ▸ mem_expand_of_edge he hs

theorem reachAux_subset (E : List Edge) (n : Nat) (s : List Nat) :
    s ⊆ reachAux E n s := by
  induction n generalizing s with
  | zero => exact fun _ h => h
  | succ n ih =>
    unfold reachAux
    split_ifs with hc
    · exact fun _ h => h
    · exact (subset_expand E s).trans (ih (expand E s))

theorem reachAux_sound {E : List Edge} {r : Nat} {n : Nat} {s : List Nat}
    (hs : ∀ x ∈ s, Reaches E r x) : ∀ x ∈ reachAux E n s, Reaches E r x := by
  induction n generalizing s with
  | zero => exact hs
  | succ n ih =>
    unfold reachAux
    split_ifs with hc
    · exact hs
    · exact ih (expand_sound (fun e he => he) hs)

theorem reachAux_fix {E : List Edge} {C : List Nat}
    (hcands : ∀ e ∈ E, e.dstNode ∈ C) :
    ∀ n s, s.Nodup → s ⊆ C → C.dedup.length < n + s.length →
      expand E (reachAux E n s) = reachAux E n s := by
  intro n
  induction n with
  | zero =>
    intro s hnd hsub hlen
    exfalso
    have hsub' : s ⊆ C.dedup := fun x hx => List.mem_dedup.2 (hsub hx)
    have := (hnd.subperm hsub').length_le
    omega
  | succ n ih =>
    intro s hnd hsub hlen
    unfold reachAux
    split_ifs with hc
    · exact hc
    · refine ih (expand E s) (nodup_expand hnd) ?_ ?_
      · intro x hx
        rcases mem_expand hx with h | ⟨e, he, hx'⟩
        · exact hsub h
        · exact hx' ▸ hcands e he
      · obtain ⟨l, hl⟩ := expand_append E s
        have hlne : l ≠ [] := by
          intro h0
          rw [h0, List.nil_append] at hl
          exact hc hl
        have hpos : 1 ≤ l.length := List.length_pos.2 hlne
        have : (expand E s).length = l.length + s.length := by
          rw [hl, List.length_append]
        omega

theorem reaches_mem_closed {E : List Edge} {S : List Nat}
    (hcl : ∀ e ∈ E, e.srcNode ∈ S → e.dstNode ∈ S) {a b : Nat}
    (hab : Reaches E a b) (ha : a ∈ S) : b ∈ S := by
  induction hab with
  | refl => exact ha
  | tail hxc hstep ih =>
    obtain ⟨e, he, hs, hd⟩ := hstep
    exact hd ▸ hcl e he (by rw [hs]; exact ih)

theorem reachableFrom_spec (E : List Edge) (r : Nat) :
    ∀ b, b ∈ reachableFrom E r ↔ Reaches E r b := by
  have hfix : expand E (reachableFrom E r) = reachableFrom E r := by
    apply reachAux_fix (C := r :: E.map (·.dstNode))
    · intro e he
      exact List.mem_cons_of_mem _ (List.mem_map.2 ⟨e, he, rfl⟩)
    · exact List.nodup_singleton r
    · intro x hx
      rw [List.mem_singleton] at hx
      exact hx ▸ List.mem_cons_self _ _
    · simp
  intro b
  constructor
  · intro h
    refine reachAux_sound ?_ b h
    intro x hx
    rw [List.mem_singleton] at hx
    exact hx ▸ Relation.ReflTransGen.refl
  · intro h
    exact reaches_mem_closed (expand_fix_closed hfix) h
      (reachAux_subset _ _ _ (List.mem_singleton.2 rfl))

theorem reaches_iff {E : List Edge} {a b : Nat} :
    reaches E a b = true ↔ Reaches E a b := by
  unfold reaches
  rw [decide_eq_true_iff]
  exact reachableFrom_spec E a b

/-- The edge set has no directed cycle: no edge closes a directed path
back from its destination to its source. -/
def Acyclic (E : List Edge) : Prop :=
  ∀ e ∈ E, ¬ Reaches E e.dstNode e.srcNode

/-- Decidable acyclicity check over the executable reachability. -/
def acyclicB (E : List Edge) : Bool :=
  E.all fun e => ! reaches E e.dstNode e.srcNode

theorem acyclicB_iff {E : List Edge} : acyclicB E = true ↔ Acyclic E := by
  unfold acyclicB Acyclic
  rw [List.all_eq_true]
  constructor
  · intro h e he hr
    have h1 := h e he
    rw [← reaches_iff] at hr
    rw [hr] at h1
    simp at h1
  · intro h e he
    have h1 : ¬ reaches E e.dstNode e.srcNode = true :=
      fun hr => h e he (reaches_iff.1 hr)
    rw [Bool.not_eq_true] at h1
    rw [h1]
    rfl

theorem reaches_cons {e₀ : Edge} {E : List Edge} {x y : Nat}
    (h : Reaches (e₀ :: E) x y) :
    Reaches E x y ∨ (Reaches E x e₀.srcNode ∧ Reaches E e₀.dstNode y) := by
  induction h with
  | refl => exact Or.inl Relation.ReflTransGen.refl
  | tail hxc hstep ih =>
    obtain ⟨e, he, hs, hd⟩ := hstep
    rcases List.mem_cons.1 he with he0 | heE
    · subst he0
      rcases ih with h1 | ⟨h1, h2⟩
      · exact Or.inr ⟨hs ▸ h1, hd ▸ Relation.ReflTransGen.refl⟩
      · exact Or.inr ⟨h1, hd ▸ Relation.ReflTransGen.refl⟩
    · rcases ih with h1 | ⟨h1, h2⟩
      · exact Or.inl (h1.tail ⟨e, heE, hs, hd⟩)
      · exact Or.inr ⟨h1, h2.tail ⟨e, heE, hs, hd⟩⟩

theorem acyclic_insert {E : List Edge} {e₀ : Edge}
    (hE : Acyclic E) (hnr : ¬ Reaches E e₀.dstNode e₀.srcNode) :
    Acyclic (e₀ :: E) := by
  intro e he hr
  rcases List.mem_cons.1 he with h | h
  · subst h
    rcases reaches_cons hr with h1 | ⟨h1, h2⟩
    · exact hnr h1
    · exact hnr h1
  · rcases reaches_cons hr with h1 | ⟨h1, h2⟩
    · exact hE e h h1
    · exact hnr ((h2.tail ⟨e, h, rfl, rfl⟩).trans h1)

theorem acyclic_subset {E' E : List Edge}
    (hsub : ∀ e ∈ E', e ∈ E) (hE : Acyclic E) : Acyclic E' :=
  fun e he hr => hE e (hsub e he) (Reaches_mono hsub hr)

theorem dropInto_subset (E : List Edge) (dn dp : Nat) :
    ∀ e ∈ dropInto E dn dp, e ∈ E :=
  fun e he => List.filter_subset' E he

theorem newNode_edges (g : NodeGraph) (k : NodeKind) :
    (newNode g k).1.edges = g.edges := rfl

theorem AddNode_edges (g : NodeGraph) (id : Nat) :
    (AddNode g id).2.edges = g.edges := by
  unfold AddNode
  cases findNode g id with
  | none => rfl
  | some k => split_ifs <;> rfl

theorem RemoveNode_edges_sublist (g : NodeGraph) (id : Nat) :
    (RemoveNode g id).2.edges.Sublist g.edges := by
  unfold RemoveNode
  cases findNode g id with
  | none => exact List.Sublist.refl _
  | some k => exact List.filter_sublist g.edges

theorem DisconnectEdge_edges_sublist (g : NodeGraph) (dn dp : Nat) :
    (DisconnectEdge g dn dp).2.edges.Sublist g.edges := by
  unfold DisconnectEdge
  cases inputPortType g dn dp with
  | none => exact List.Sublist.refl _
  | some t => exact List.filter_sublist g.edges

theorem ConnectEdge_cases (g : NodeGraph) (sn sp dn dp : Nat) :
    ((ConnectEdge g sn sp dn dp).1 = .ok () ∧ reaches g.edges dn sn = false ∧
      (ConnectEdge g sn sp dn dp).2 =
        { g with edges := ⟨sn, sp, dn, dp⟩ :: dropInto g.edges dn dp }) ∨
    ((∃ err, (ConnectEdge g sn sp dn dp).1 = .error err) ∧
      (ConnectEdge g sn sp dn dp).2 = g) := by
  rcases ho : outputPortType g sn sp with _ | tyo
  · refine Or.inr ⟨⟨GraphError.lookupError, ?_⟩, ?_⟩ <;> simp [ConnectEdge, ho]
  · rcases hi : inputPortType g dn dp with _ | tyi
    · refine Or.inr ⟨⟨GraphError.lookupError, ?_⟩, ?_⟩ <;> simp [ConnectEdge, ho, hi]
    · by_cases h1 : tyo = tyi
      · by_cases h2 : reaches g.edges dn sn = true
        · refine Or.inr ⟨⟨GraphError.cycleError, ?_⟩, ?_⟩ <;>
            simp [ConnectEdge, ho, hi, h1, h2]
        · rw [Bool.not_eq_true] at h2
          refine Or.inl ⟨?_, h2, ?_⟩ <;> simp [ConnectEdge, ho, hi, h1, h2]
      · refine Or.inr ⟨⟨GraphError.typeMismatch, ?_⟩, ?_⟩ <;>
          simp [ConnectEdge, ho, hi, h1]

theorem acyclic_ConnectEdge {g : NodeGraph} (h : Acyclic g.edges)
    (sn sp dn dp : Nat) : Acyclic (ConnectEdge g sn sp dn dp).2.edges := by
  rcases ConnectEdge_cases g sn sp dn dp with ⟨hok, hne, hst⟩ | ⟨_, hst⟩
  · rw [hst]
    have hsub := dropInto_subset g.edges dn dp
    have hacF : Acyclic (dropInto g.edges dn dp) := acyclic_subset hsub h
    apply acyclic_insert hacF
    intro hr
    have hfull : Reaches g.edges dn sn := Reaches_mono hsub hr
    rw [← reaches_iff, hne] at hfull
    exact Bool.false_ne_true hfull
  · rw [hst]
    exact h

theorem acyclic_applyOp {g : NodeGraph} (h : Acyclic g.edges) (op : GOp) :
    Acyclic (applyOp g op).edges := by
  cases op with
  | newNode k => exact h
  | addNode id =>
    show Acyclic (AddNode g id).2.edges
    rw [AddNode_edges]
    exact h
  | removeNode id =>
    exact acyclic_subset (RemoveNode_edges_sublist g id).subset h
  | connectEdge sn sp dn dp => exact acyclic_ConnectEdge h sn sp dn dp
  | disconnectEdge dn dp =>
    exact acyclic_subset (DisconnectEdge_edges_sublist g dn dp).subset h

theorem acyclic_applyOps :
    ∀ (ops : List GOp) (g : NodeGraph), Acyclic g.edges →
      Acyclic (applyOps g ops).edges := by
  intro ops
  induction ops with
  | nil => exact fun g h => h
  | cons op ops ih => exact fun g h => ih _ (acyclic_applyOp h op)

theorem reachable_acyclic {g : NodeGraph} (h : ReachableGS g) :
    Acyclic g.edges := by
  obtain ⟨ops, rfl⟩ := h
  exact acyclic_applyOps ops emptyNG (fun e he => absurd he (List.not_mem_nil e))

/-- Edges of `E` pointing into input port `dp` of node `dn`. -/
def edgesInto (E : List Edge) (dn dp : Nat) : List Edge :=
  E.filter (fun e => e.dstNode = dn ∧ e.dstPort = dp)

/-- Every input port has at most one incoming edge. -/
def AtMostOne (E : List Edge) : Prop :=
  ∀ dn dp, (edgesInto E dn dp).length ≤ 1

theorem edgesInto_sublist {E E' : List Edge} (h : E'.Sublist E) (dn dp : Nat) :
    (edgesInto E' dn dp).Sublist (edgesInto E dn dp) :=
  List.Sublist.filter _ h

theorem atMostOne_sublist {E E' : List Edge} (h : E'.Sublist E)
    (hE : AtMostOne E) : AtMostOne E' :=
  fun dn dp => le_trans ((edgesInto_sublist h dn dp).length_le) (hE dn dp)

theorem edgesInto_dropInto_self (E : List Edge) (dn dp : Nat) :
    edgesInto (dropInto E dn dp) dn dp = [] := by
  unfold edgesInto dropInto
  rw [List.filter_filter]
  apply List.filter_eq_nil_iff.2
  intro e he
  simp only [Bool.and_eq_true, decide_eq_true_eq]
  intro ⟨h1, h2⟩
  exact absurd h1.1 (fun _ => by simp_all)

theorem edgesInto_cons_self (e : Edge) (E : List Edge) :
    edgesInto (e :: E) e.dstNode e.dstPort = e :: edgesInto E e.dstNode e.dstPort := by
  unfold edgesInto
  rw [List.filter_cons_of_pos]
  simp

theorem edgesInto_cons_other (e : Edge) (E : List Edge) {dn dp : Nat}
    (h : ¬ (e.dstNode = dn ∧ e.dstPort = dp)) :
    edgesInto (e :: E) dn dp = edgesInto E dn dp := by
  unfold edgesInto
  rw [List.filter_cons_of_neg]
  simp [h]

theorem ConnectEdge_ok_edgesInto {g : NodeGraph} {sn sp dn dp : Nat}
    (h : (ConnectEdge g sn sp dn dp).1 = .ok ()) :
    edgesInto (ConnectEdge g sn sp dn dp).2.edges dn dp = [⟨sn, sp, dn, dp⟩] := by
  rcases ConnectEdge_cases g sn sp dn dp with ⟨hok, hne, hst⟩ | ⟨⟨err, herr⟩, hst⟩
  · rw [hst]
    show edgesInto (Edge.mk sn sp dn dp :: dropInto g.edges dn dp) dn dp = _
    rw [edgesInto_cons_self ⟨sn, sp, dn, dp⟩ (dropInto g.edges dn dp),
      edgesInto_dropInto_self]
  · rw [herr] at h
    cases h

theorem atMostOne_ConnectEdge {g : NodeGraph} (h : AtMostOne g.edges)
    (sn sp dn dp : Nat) : AtMostOne (ConnectEdge g sn sp dn dp).2.edges := by
  rcases ConnectEdge_cases g sn sp dn dp with ⟨hok, hne, hst⟩ | ⟨_, hst⟩
  · rw [hst]
    intro dn' dp'
    show (edgesInto (Edge.mk sn sp dn dp :: dropInto g.edges dn dp) dn' dp').length ≤ 1
    by_cases hd : dn = dn' ∧ dp = dp'
    · obtain ⟨rfl, rfl⟩ := hd
      rw [edgesInto_cons_self ⟨sn, sp, dn, dp⟩, edgesInto_dropInto_self]
      simp
    · rw [edgesInto_cons_other]
      · exact le_trans (edgesInto_sublist (List.filter_sublist _) dn' dp').length_le
          (h dn' dp')
      · exact hd
  · rw [hst]
    exact h

theorem atMostOne_applyOp {g : NodeGraph} (h : AtMostOne g.edges) (op : GOp) :
    AtMostOne (applyOp g op).edges := by
  cases op with
  | newNode k => exact h
  | addNode id =>
    show AtMostOne (AddNode g id).2.edges
    rw [AddNode_edges]
    exact h
  | removeNode id => exact atMostOne_sublist (RemoveNode_edges_sublist g id) h
  | connectEdge sn sp dn dp => exact atMostOne_ConnectEdge h sn sp dn dp
  | disconnectEdge dn dp =>
    exact atMostOne_sublist (DisconnectEdge_edges_sublist g dn dp) h

theorem atMostOne_applyOps :
    ∀ (ops : List GOp) (g : NodeGraph), AtMostOne g.edges →
      AtMostOne (applyOps g ops).edges := by
  intro ops
  induction ops with
  | nil => exact fun g h => h
  | cons op ops ih => exact fun g h => ih _ (atMostOne_applyOp h op)

theorem reachable_atMostOne {g : NodeGraph} (h : ReachableGS g) :
    AtMostOne g.edges := by
  obtain ⟨ops, rfl⟩ := h
  exact atMostOne_applyOps ops emptyNG (fun dn dp => by simp [edgesInto, emptyNG])

/-- Per-pass evaluation context: the memoization cache (node id to its
computed output values) and the invocation log, in the order node
computations were invoked during the pass. -/
structure EvalCtx where
  cache : List (Nat × List Value)
  log : List Nat
deriving DecidableEq, Repr

/-- The context at the start of an evaluation pass: nothing memoized,
nothing invoked. -/
def emptyCtx : EvalCtx := ⟨[], []⟩

/-- Modelled from the spec: evaluation failures.  `nodeFailed` carries
the failing node id and the underlying cause; `missingInput` reports an
input port with neither an incoming edge nor a default literal;
`unknownNode` and `badSource` are the lookup failures of a dangling
reference; `outOfFuel` bounds the recursion depth of the embedding. -/
inductive EvalError
  | nodeFailed (id : Nat) (cause : RunError)
  | missingInput (id : Nat) (port : Nat)
  | unknownNode (id : Nat)
  | badSource (id : Nat) (port : Nat)
  | outOfFuel
deriving DecidableEq, Repr

/-- The edge into input port `i` of node `n`, if any. -/
def findEdgeInto (E : List Edge) (n i : Nat) : Option Edge :=
  E.find? (fun e => e.dstNode = n ∧ e.dstPort = i)

/-- Node ids present in a memoization cache. -/
def cacheKeys (c : List (Nat × List Value)) : List Nat := c.map (·.1)

/-- Modelled from the spec: resolve the values of the input ports `ps`
of node `nid`, `i` being the index of the first port of `ps`.  A port
with an incoming edge is resolved by evaluating the upstream node with
`ev` and projecting the source output port; an unconnected port reads
its default literal, and fails when it has none. -/
def resolveWith (ev : EvalCtx → Nat → Except EvalError (EvalCtx × List Value))
    (E : List Edge) (nid : Nat) :
    EvalCtx → List InputPort → Nat → Except EvalError (EvalCtx × List Value)
  | ctx, [], _ => .ok (ctx, [])
  | ctx, p :: ps', i =>
    match findEdgeInto E nid i with
    | some e =>
      match ev ctx e.srcNode with
      | .error err => .error err
      | .ok (ctx1, outs) =>
        match outs.get? e.srcPort with
        | none => .error (EvalError.badSource e.srcNode e.srcPort)
        | some v =>
          match resolveWith ev E nid ctx1 ps' (i + 1) with
          | .error err => .error err
          | .ok (ctx2, vs) => .ok (ctx2, v :: vs)
    | none =>
      match p.defaultValue with
      | none => .error (EvalError.missingInput nid i)
      | some v =>
        match resolveWith ev E nid ctx ps' (i + 1) with
        | .error err => .error err
        | .ok (ctx2, vs) => .ok (ctx2, v :: vs)

/-- Modelled from the spec: evaluate node `nid`, given the evaluator
`ev` for upstream nodes.  A cached node is returned without re-invoking
its computation; otherwise the input ports are resolved, the node
computation runs on the resolved values, and the outputs are memoized
and the invocation logged. -/
def evalStep (g : NodeGraph) (ev : EvalCtx → Nat → Except EvalError (EvalCtx × List Value))
    (ctx : EvalCtx) (nid : Nat) : Except EvalError (EvalCtx × List Value) :=
  match ctx.cache.find? (fun p => p.1 = nid) with
  | some pr => .ok (ctx, pr.2)
  | none =>
    match findNode g nid with
    | none => .error (EvalError.unknownNode nid)
    | some k =>
      match resolveWith ev g.edges nid ctx k.inputPorts 0 with
      | .error e => .error e
      | .ok (ctx', ins) =>
        match k.run ins with
        | .error c => .error (EvalError.nodeFailed nid c)
        | .ok outs => .ok (⟨(nid, outs) :: ctx'.cache, ctx'.log ++ [nid]⟩, outs)

/-- Modelled from the spec: one evaluation pass resolving the outputs of
node `nid`, with fuel bounding the recursion depth. -/
def evalNode (g : NodeGraph) : Nat → EvalCtx → Nat → Except EvalError (EvalCtx × List Value)
  | 0 => fun _ _ => .error EvalError.outOfFuel
  | f + 1 => evalStep g (evalNode g f)

/-- Modelled from the spec: a full evaluation pass requested for node
`nid`, delivering the output values on success.  The pass never mutates
the graph, which is returned unchanged alongside the result. -/
def runEvalPass (g : NodeGraph) (fuel : Nat) (nid : Nat) :
    Except EvalError (List Value) × NodeGraph :=
  match evalNode g fuel emptyCtx nid with
  | .error e => (.error e, g)
  | .ok (_, vals) => (.ok vals, g)

theorem findEdgeInto_mem {E : List Edge} {n i : Nat} {e : Edge}
    (h : findEdgeInto E n i = some e) : e ∈ E ∧ e.dstNode = n ∧ e.dstPort = i := by
  have h1 := List.mem_of_find?_eq_some h
  have h2 := List.find?_some h
  simp only [decide_eq_true_eq] at h2
  exact ⟨h1, h2.1, h2.2⟩

theorem findEdgeInto_none {E : List Edge} {n i : Nat}
    (h : findEdgeInto E n i = none) : ∀ e ∈ E, ¬ (e.dstNode = n ∧ e.dstPort = i) := by
  intro e he
  have := List.find?_eq_none.1 h e he
  simpa using this

theorem mem_cacheKeys {c : List (Nat × List Value)} {n : Nat} :
    n ∈ cacheKeys c ↔ ∃ vs, (n, vs) ∈ c := by
  unfold cacheKeys
  rw [List.mem_map]
  constructor
  · rintro ⟨⟨a, vs⟩, hm, rfl⟩
    exact ⟨vs, hm⟩
  · rintro ⟨vs, hm⟩
    exact ⟨(n, vs), hm, rfl⟩

theorem find?_cache_none {c : List (Nat × List Value)} {n : Nat}
    (h : c.find? (fun p => p.1 = n) = none) : n ∉ cacheKeys c := by
  intro hmem
  obtain ⟨vs, hm⟩ := mem_cacheKeys.1 hmem
  have := List.find?_eq_none.1 h _ hm
  simp at this

theorem find?_cache_some {c : List (Nat × List Value)} {n : Nat} {pr : Nat × List Value}
    (h : c.find? (fun p => p.1 = n) = some pr) : n ∈ cacheKeys c := by
  have h1 := List.mem_of_find?_eq_some h
  have h2 := List.find?_some h
  simp only [decide_eq_true_eq] at h2
  exact List.mem_map.2 ⟨pr, h1, h2⟩

/-- Node `m` has a computation that can genuinely fail with cause `c`. -/
def NodeFails (g : NodeGraph) (m : Nat) (c : RunError) : Prop :=
  ∃ k ins, findNode g m = some k ∧ NodeKind.run k ins = .error c

theorem resolveWith_err_nodeFailed {g : NodeGraph} {f : Nat}
    (ihE : ∀ ctx nid m c, evalNode g f ctx nid = .error (EvalError.nodeFailed m c) →
      NodeFails g m c ∧ Reaches g.edges m nid) :
    ∀ ps ctx nid i m c,
      resolveWith (evalNode g f) g.edges nid ctx ps i =
        .error (EvalError.nodeFailed m c) →
      NodeFails g m c ∧ ∃ e ∈ g.edges, e.dstNode = nid ∧ Reaches g.edges m e.srcNode := by
  intro ps
  induction ps with
  | nil =>
    intro ctx nid i m c h
    simp [resolveWith] at h
  | cons p ps ih =>
    intro ctx nid i m c h
    rw [resolveWith] at h
    split at h
    next e hE =>
      obtain ⟨heM, heD, heP⟩ := findEdgeInto_mem hE
      split at h
      next err hev =>
        cases h
        obtain ⟨h1, h2⟩ := ihE _ _ _ _ hev
        exact ⟨h1, e, heM, heD, h2⟩
      next ctx1 outs hev =>
        split at h
        next hgs => cases h
        next v hgs =>
          split at h
          next err hrest =>
            cases h
            exact ih _ _ _ _ _ hrest
          next ctx2 vs hrest => cases h
    next hE =>
      split at h
      next hdv => cases h
      next v hdv =>
        split at h
        next err hrest =>
          cases h
          exact ih _ _ _ _ _ hrest
        next ctx2 vs hrest => cases h

theorem evalNode_err_nodeFailed {g : NodeGraph} :
    ∀ f ctx nid m c, evalNode g f ctx nid = .error (EvalError.nodeFailed m c) →
      NodeFails g m c ∧ Reaches g.edges m nid := by
  intro f
  induction f with
  | zero =>
    intro ctx nid m c h
    cases h
  | succ f ihE =>
    intro ctx nid m c h
    rw [show evalNode g (f + 1) = evalStep g (evalNode g f) from rfl] at h
    rw [evalStep] at h
    split at h
    next pr hc => cases h
    next hc =>
      split at h
      next hn => cases h
      next k hn =>
        split at h
        next e hr =>
          cases h
          obtain ⟨h1, e', he', hd', hre⟩ := resolveWith_err_nodeFailed ihE _ _ _ _ _ _ hr
          exact ⟨h1, hre.tail ⟨e', he', rfl, hd'⟩⟩
        next ctx' ins hr =>
          split at h
          next c' hrun =>
            cases h
            exact ⟨⟨k, ins, hn, hrun⟩, Relation.ReflTransGen.refl⟩
          next outs hrun => cases h

/-- A memoization cache whose key set is closed under following edges
backward: whenever a destination node is cached, the source node of
every edge into it is cached as well. -/
def ClosedCache (g : NodeGraph) (K : List Nat) : Prop :=
  ∀ e ∈ g.edges, e.dstNode ∈ K → e.srcNode ∈ K

/-- Node `n` exists and its computation succeeds on some input list. -/
def RunsOK (g : NodeGraph) (n : Nat) : Prop :=
  ∃ k ins outs, findNode g n = some k ∧ NodeKind.run k ins = .ok outs

/-- The evaluation context `ctx'` extends `ctx` by invoking exactly the
nodes of some list `Δ`: each newly invoked node was not yet memoized,
satisfies `R`, and has a succeeding computation; the memoized key set
grows by exactly `Δ`, and the log by `Δ` in order. -/
def CtxExtends (g : NodeGraph) (ctx ctx' : EvalCtx) (R : Nat → Prop) : Prop :=
  ∃ Δ, ctx'.log = ctx.log ++ Δ ∧ Δ.Nodup ∧
    (∀ n ∈ Δ, n ∉ cacheKeys ctx.cache ∧ R n ∧ RunsOK g n) ∧
    (∀ n, n ∈ cacheKeys ctx'.cache ↔ n ∈ cacheKeys ctx.cache ∨ n ∈ Δ)

theorem CtxExtends.same {g : NodeGraph} {ctx : EvalCtx} {R : Nat → Prop} :
    CtxExtends g ctx ctx R :=
  ⟨[], (List.append_nil _).symm, List.nodup_nil,
   fun n h => absurd h (List.not_mem_nil n), fun n => by simp⟩

theorem CtxExtends.mono_r {g : NodeGraph} {ctx ctx' : EvalCtx} {R R' : Nat → Prop}
    (h : CtxExtends g ctx ctx' R) (hR : ∀ n, R n → R' n) :
    CtxExtends g ctx ctx' R' := by
  obtain ⟨Δ, h1, h2, h3, h4⟩ := h
  exact ⟨Δ, h1, h2,
    fun n hn => ⟨(h3 n hn).1, hR n (h3 n hn).2.1, (h3 n hn).2.2⟩, h4⟩

theorem CtxExtends.keys_mono {g : NodeGraph} {ctx ctx' : EvalCtx} {R : Nat → Prop}
    (h : CtxExtends g ctx ctx' R) {n : Nat} (hn : n ∈ cacheKeys ctx.cache) :
    n ∈ cacheKeys ctx'.cache := by
  obtain ⟨Δ, h1, h2, h3, h4⟩ := h
  exact (h4 n).2 (Or.inl hn)

theorem CtxExtends.comp {g : NodeGraph} {c1 c2 c3 : EvalCtx} {R : Nat → Prop}
    (ha : CtxExtends g c1 c2 R) (hb : CtxExtends g c2 c3 R) :
    CtxExtends g c1 c3 R := by
  obtain ⟨Δ1, a1, a2, a3, a4⟩ := ha
  obtain ⟨Δ2, b1, b2, b3, b4⟩ := hb
  refine ⟨Δ1 ++ Δ2, ?_, ?_, ?_, ?_⟩
  · rw [b1, a1, List.append_assoc]
  · refine List.Nodup.append a2 b2 ?_
    intro n hn1 hn2
    exact (b3 n hn2).1 ((a4 n).2 (Or.inr hn1))
  · intro n hn
    rcases List.mem_append.1 hn with h | h
    · exact a3 n h
    · exact ⟨fun hc => (b3 n h).1 ((a4 n).2 (Or.inl hc)), (b3 n h).2.1, (b3 n h).2.2⟩
  · intro n
    rw [b4 n, a4 n, List.mem_append]
    tauto

/-- Well-formedness of the edge set: every edge points into an existing
input port, and no two edges share a destination slot. -/
def WFgraph (g : NodeGraph) : Prop :=
  (∀ e ∈ g.edges, ∃ k, findNode g e.dstNode = some k ∧
     e.dstPort < k.inputPorts.length) ∧
  g.edges.Pairwise (fun a b => ¬ (a.dstNode = b.dstNode ∧ a.dstPort = b.dstPort))

/-- Decidable well-formedness check. -/
def wellFormedB (g : NodeGraph) : Bool :=
  (g.edges.all fun e =>
    match findNode g e.dstNode with
    | some k => decide (e.dstPort < k.inputPorts.length)
    | none => false) &&
  decide (g.edges.Pairwise fun a b => ¬ (a.dstNode = b.dstNode ∧ a.dstPort = b.dstPort))

theorem wellFormedB_iff {g : NodeGraph} : wellFormedB g = true ↔ WFgraph g := by
  unfold wellFormedB WFgraph
  rw [Bool.and_eq_true, List.all_eq_true, decide_eq_true_iff]
  apply and_congr_left'
  apply forall_congr'
  intro e
  apply imp_congr_right
  intro he
  cases h : findNode g e.dstNode with
  | none =>
    simp only [h]
    constructor
    · intro hf
      cases hf
    · rintro ⟨k, hk, _⟩
      cases hk
  | some k =>
    simp only [h, decide_eq_true_iff]
    constructor
    · intro hlt
      exact ⟨k, rfl, hlt⟩
    · rintro ⟨k', hk', hlt⟩
      cases hk'
      exact hlt

theorem unique_edge_slot {E : List Edge}
    (hp : E.Pairwise (fun a b => ¬ (a.dstNode = b.dstNode ∧ a.dstPort = b.dstPort)))
    {e e' : Edge} (he' : e' ∈ E)
    (hfind : findEdgeInto E e'.dstNode e'.dstPort = some e) : e = e' := by
  induction E with
  | nil => cases he'
  | cons f E ih =>
    rw [List.pairwise_cons] at hp
    unfold findEdgeInto at hfind
    by_cases hf : f.dstNode = e'.dstNode ∧ f.dstPort = e'.dstPort
    · rw [List.find?_cons_of_pos _ (by simpa using hf)] at hfind
      cases hfind
      rcases List.mem_cons.1 he' with h | h
      · rw [h]
      · exact absurd hf (hp.1 e' h)
    · rw [List.find?_cons_of_neg _ (by simpa using hf)] at hfind
      rcases List.mem_cons.1 he' with h | h
      · exact absurd ⟨by rw [h], by rw [h]⟩ hf
      · exact ih hp.2 h hfind

/-- Success postcondition of one `evalNode` call at a given fuel. -/
def EvalOK (g : NodeGraph) (f : Nat) : Prop :=
  ∀ ctx nid ctx' vals, evalNode g f ctx nid = .ok (ctx', vals) →
    CtxExtends g ctx ctx' (fun n => Reaches g.edges n nid) ∧
    nid ∈ cacheKeys ctx'.cache ∧
    (ClosedCache g (cacheKeys ctx.cache) → ClosedCache g (cacheKeys ctx'.cache))

/-- Success postcondition of one `resolveWith (evalNode g f)` call. -/
def ResolveOK (g : NodeGraph) (f : Nat) : Prop :=
  ∀ ps ctx nid i ctx' vals,
    resolveWith (evalNode g f) g.edges nid ctx ps i = .ok (ctx', vals) →
    CtxExtends g ctx ctx'
      (fun n => ∃ e ∈ g.edges, e.dstNode = nid ∧ Reaches g.edges n e.srcNode) ∧
    (∀ e ∈ g.edges, e.dstNode = nid → i ≤ e.dstPort → e.dstPort < i + ps.length →
      e.srcNode ∈ cacheKeys ctx'.cache) ∧
    (ClosedCache g (cacheKeys ctx.cache) → ClosedCache g (cacheKeys ctx'.cache))

theorem resolveOK_of_evalOK {g : NodeGraph} (hwf : WFgraph g) {f : Nat}
    (hE : EvalOK g f) : ResolveOK g f := by
  intro ps
  induction ps with
  | nil =>
    intro ctx nid i ctx' vals h
    rw [resolveWith] at h
    cases h
    refine ⟨CtxExtends.same, ?_, fun hc => hc⟩
    intro e he hd hge hlt
    simp only [List.length_nil] at hlt
    omega
  | cons p ps ih =>
    intro ctx nid i ctx' vals h
    rw [resolveWith] at h
    split at h
    next e hEi =>
      obtain ⟨heM, heD, heP⟩ := findEdgeInto_mem hEi
      split at h
      next err hev => cases h
      next ctx1 outs hev =>
        split at h
        next hgs => cases h
        next v hgs =>
          split at h
          next err hrest => cases h
          next ctx2 vs hrest =>
            cases h
            obtain ⟨E1, hmem1, hcl1⟩ := hE _ _ _ _ hev
            obtain ⟨E2, cov2, hcl2⟩ := ih _ _ _ _ _ hrest
            refine ⟨(E1.mono_r ?_).comp E2, ?_, fun hc => hcl2 (hcl1 hc)⟩
            · intro n hr
              exact ⟨e, heM, heD, hr⟩
            · intro e' he' hd' hge hlt
              by_cases hi : e'.dstPort = i
              · have heq : e = e' := by
                  apply unique_edge_slot hwf.2 he'
                  rw [hd', hi]
                  exact hEi
                rw [← heq]
                exact E2.keys_mono hmem1
              · refine cov2 e' he' hd' (by omega) ?_
                simp only [List.length_cons] at hlt
                omega
    next hEi =>
      split at h
      next hdv => cases h
      next v hdv =>
        split at h
        next err hrest => cases h
        next ctx2 vs hrest =>
          cases h
          obtain ⟨E2, cov2, hcl2⟩ := ih _ _ _ _ _ hrest
          refine ⟨E2, ?_, hcl2⟩
          intro e' he' hd' hge hlt
          by_cases hi : e'.dstPort = i
          · exact absurd ⟨hd', hi⟩ (findEdgeInto_none hEi e' he')
          · refine cov2 e' he' hd' (by omega) ?_
            simp only [List.length_cons] at hlt
            omega

theorem evalOK_succ {g : NodeGraph} (hwf : WFgraph g) (hac : Acyclic g.edges)
    {f : Nat} (hR : ResolveOK g f) : EvalOK g (f + 1) := by
  intro ctx nid ctx' vals h
  rw [show evalNode g (f + 1) = evalStep g (evalNode g f) from rfl, evalStep] at h
  split at h
  next pr hc =>
    cases h
    exact ⟨CtxExtends.same, find?_cache_some hc, fun hcl => hcl⟩
  next hc =>
    split at h
    next hn => cases h
    next k hn =>
      split at h
      next e hr => cases h
      next ctxr ins hr =>
        split at h
        next c' hrun => cases h
        next vals hrun =>
          cases h
          obtain ⟨Er, cov, hclr⟩ := hR _ _ _ _ _ _ hr
          obtain ⟨Δr, r1, r2, r3, r4⟩ := Er
          have hfresh : nid ∉ cacheKeys ctx.cache := find?_cache_none hc
          have hΔ : nid ∉ Δr := by
            intro hin
            obtain ⟨e, heM, heD, hre⟩ := (r3 nid hin).2.1
            exact hac e heM (heD ▸ hre)
          have hkeys : cacheKeys ((nid, vals) :: ctxr.cache) = nid :: cacheKeys ctxr.cache := rfl
          refine ⟨⟨Δr ++ [nid], ?_, ?_, ?_, ?_⟩, ?_, ?_⟩
          · show ctxr.log ++ [nid] = ctx.log ++ (Δr ++ [nid])
            rw [r1, List.append_assoc]
          · exact List.Nodup.append r2 (List.nodup_singleton nid)
              (fun n hn1 hn2 => hΔ ((List.mem_singleton.1 hn2) ▸ hn1))
          · intro n hmem
            rcases List.mem_append.1 hmem with hmem | hmem
            · obtain ⟨f1, f2, f3⟩ := r3 n hmem
              obtain ⟨e, heM, heD, hre⟩ := f2
              exact ⟨f1, hre.tail ⟨e, heM, rfl, heD⟩, f3⟩
            · rw [List.mem_singleton.1 hmem]
              exact ⟨hfresh, Relation.ReflTransGen.refl, ⟨k, ins, vals, hn, hrun⟩⟩
          · intro n
            show n ∈ cacheKeys ((nid, vals) :: ctxr.cache) ↔ _
            rw [hkeys, List.mem_cons, r4 n, List.mem_append, List.mem_singleton]
            tauto
          · show nid ∈ cacheKeys ((nid, vals) :: ctxr.cache)
            rw [hkeys]
            exact List.mem_cons_self _ _
          · intro hcl
            have hclr' := hclr hcl
            intro e heM hd
            show e.srcNode ∈ cacheKeys ((nid, vals) :: ctxr.cache)
            rw [hkeys]
            rw [hkeys, List.mem_cons] at hd
            rcases hd with hd | hd
            · obtain ⟨k', hk', hlt⟩ := hwf.1 e heM
              rw [hd, hn] at hk'
              cases hk'
              exact List.mem_cons_of_mem _
                (cov e heM hd (Nat.zero_le _) (by omega))
            · exact List.mem_cons_of_mem _ (hclr' e heM hd)

theorem evalOK_all {g : NodeGraph} (hwf : WFgraph g) (hac : Acyclic g.edges) :
    ∀ f, EvalOK g f := by
  intro f
  induction f with
  | zero =>
    intro ctx nid ctx' vals h
    cases h
  | succ f ih => exact evalOK_succ hwf hac (resolveOK_of_evalOK hwf ih)

theorem mem_closed_of_reaches {g : NodeGraph} {K : List Nat}
    (hcl : ClosedCache g K) {a b : Nat} (h : Reaches g.edges a b) (hb : b ∈ K) :
    a ∈ K := by
  induction h using Relation.ReflTransGen.head_induction_on with
  | refl => exact hb
  | head hstep htail ih =>
    obtain ⟨e, he, hs, hd⟩ := hstep
    exact hs ▸ hcl e he (hd ▸ ih)

theorem evalNode_pass_log {g : NodeGraph} (hwf : WFgraph g) (hac : Acyclic g.edges)
    {F nid : Nat} {ctx' : EvalCtx} {vals : List Value}
    (h : evalNode g F emptyCtx nid = .ok (ctx', vals)) :
    ctx'.log.Nodup ∧ ∀ n, n ∈ ctx'.log ↔ Reaches g.edges n nid := by
  obtain ⟨Ext, hmem, hclp⟩ := evalOK_all hwf hac F _ _ _ _ h
  obtain ⟨Δ, h1, h2, h3, h4⟩ := Ext
  have hlog : ctx'.log = Δ := by simpa [emptyCtx] using h1
  refine ⟨hlog ▸ h2, ?_⟩
  intro n
  rw [hlog]
  constructor
  · intro hn
    exact (h3 n hn).2.1
  · intro hre
    have hcl0 : ClosedCache g (cacheKeys emptyCtx.cache) := by
      intro e he hd
      simp [emptyCtx, cacheKeys] at hd
    have hmem' : n ∈ cacheKeys ctx'.cache :=
      mem_closed_of_reaches (hclp hcl0) hre hmem
    rcases (h4 n).1 hmem' with hl | hr
    · simp [emptyCtx, cacheKeys] at hl
    · exact hr

theorem AddNode_err_state {g : NodeGraph} {id : Nat} {err : GraphError}
    (h : (AddNode g id).1 = .error err) : (AddNode g id).2 = g := by
  unfold AddNode at h ⊢
  rcases hf : findNode g id with _ | k
  · rfl
  · exfalso
    rw [hf] at h
    by_cases hm : id ∈ g.members <;> simp [hm] at h

theorem RemoveNode_err_state {g : NodeGraph} {id : Nat} {err : GraphError}
    (h : (RemoveNode g id).1 = .error err) : (RemoveNode g id).2 = g := by
  unfold RemoveNode at h ⊢
  rcases hf : findNode g id with _ | k
  · rfl
  · exfalso
    rw [hf] at h
    simp at h

theorem ConnectEdge_err_state {g : NodeGraph} {sn sp dn dp : Nat} {err : GraphError}
    (h : (ConnectEdge g sn sp dn dp).1 = .error err) :
    (ConnectEdge g sn sp dn dp).2 = g := by
  rcases ConnectEdge_cases g sn sp dn dp with ⟨hok, _, _⟩ | ⟨_, hst⟩
  · rw [hok] at h
    cases h
  · exact hst

theorem DisconnectEdge_err_state {g : NodeGraph} {dn dp : Nat} {err : GraphError}
    (h : (DisconnectEdge g dn dp).1 = .error err) : (DisconnectEdge g dn dp).2 = g := by
  unfold DisconnectEdge at h ⊢
  rcases hf : inputPortType g dn dp with _ | ty
  · rfl
  · exfalso
    rw [hf] at h
    simp at h

theorem runEvalPass_state (g : NodeGraph) (fuel nid : Nat) :
    (runEvalPass g fuel nid).2 = g := by
  unfold runEvalPass
  split <;> rfl

theorem find?_filter_of_imp {α : Type} (l : List α) (p q : α → Bool)
    (h : ∀ x, p x = true → q x = true) : (l.filter q).find? p = l.find? p := by
  induction l with
  | nil => rfl
  | cons x l ih =>
    by_cases hq : q x = true
    · rw [List.filter_cons_of_pos hq]
      by_cases hp : p x = true
      · rw [List.find?_cons_of_pos _ hp, List.find?_cons_of_pos _ hp]
      · rw [List.find?_cons_of_neg _ (by simp [hp]),
          List.find?_cons_of_neg _ (by simp [hp])]
        exact ih
    · rw [List.filter_cons_of_neg (by simp [hq])]
      rw [List.find?_cons_of_neg _ ?_]
      · exact ih
      · intro hp
        exact hq (h x hp)

theorem RemoveNode_state {g : NodeGraph} {id : Nat} {k : NodeKind}
    (h : findNode g id = some k) :
    RemoveNode g id = (.ok (), { g with
      nodes := g.nodes.filter (fun p => ¬ p.1 = id),
      members := g.members.filter (fun m => ¬ m = id),
      edges := g.edges.filter (fun e => ¬ e.srcNode = id ∧ ¬ e.dstNode = id) }) := by
  unfold RemoveNode
  rw [h]

theorem findNode_RemoveNode_self {g : NodeGraph} {id : Nat} {k : NodeKind}
    (h : findNode g id = some k) : findNode (RemoveNode g id).2 id = none := by
  rw [RemoveNode_state h]
  unfold findNode
  rw [Option.map_eq_none']
  rw [List.find?_eq_none]
  intro p hp
  have := (List.mem_filter.1 hp).2
  simp only [decide_not, Bool.not_eq_true', decide_eq_false_iff_not] at this
  simp [this]

theorem findNode_RemoveNode_other {g : NodeGraph} {id : Nat} {k : NodeKind}
    (h : findNode g id = some k) {j : Nat} (hne : ¬ j = id) :
    findNode (RemoveNode g id).2 j = findNode g j := by
  rw [RemoveNode_state h]
  unfold findNode
  show ((g.nodes.filter (fun p => ¬ p.1 = id)).find? (fun p => p.1 = j)).map (·.2) = _
  rw [find?_filter_of_imp]
  intro x hx
  simp only [decide_eq_true_eq] at hx
  simp [hx, hne]

theorem would_cycle_reaches {g : NodeGraph} {sn sp dn dp : Nat}
    (hA : Acyclic g.edges)
    (hnc : ¬ Acyclic (Edge.mk sn sp dn dp :: dropInto g.edges dn dp)) :
    Reaches g.edges dn sn := by
  unfold Acyclic at hnc
  push_neg at hnc
  obtain ⟨e, he, hr⟩ := hnc
  have hsub := dropInto_subset g.edges dn dp
  have hAF : Acyclic (dropInto g.edges dn dp) := acyclic_subset hsub hA
  rcases List.mem_cons.1 he with rfl | heF
  · rcases reaches_cons hr with h1 | ⟨h1, h2⟩
    · exact Reaches_mono hsub h1
    · exact Reaches_mono hsub h1
  · rcases reaches_cons hr with h1 | ⟨h1, h2⟩
    · exact absurd h1 (hAF e heF)
    · exact Reaches_mono hsub ((h2.tail ⟨e, heF, rfl, rfl⟩).trans h1)

/-- Panel classes instantiated by `MainWindow::ProjectOpen`. -/
inductive PanelKind
  | projectPanel
  | viewerPanel
  | toolPanel
  | nodePanel
  | timelinePanel
deriving DecidableEq, Repr

/-- Qt dock areas used by `MainWindow::ProjectOpen`. -/
inductive DockArea
  | top
  | bottom
deriving DecidableEq, Repr

/-- State assembled by `MainWindow::ProjectOpen`: the dock panels in
creation order with their dock areas, the project bound to the project
panel, the creation-order index of the panel passed to
`ViewerOutput::AttachViewer`, and the graph handed to the node panel. -/
structure MainWindowState where
  panels : List (PanelKind × DockArea)
  boundProject : Option Nat
  attachedViewerPanel : Option Nat
  nodePanelGraph : Option NodeGraph
deriving DecidableEq, Repr

/-- Embedded from `olive::MainWindow::ProjectOpen` (mainwindow.cpp,
lines 61 to 96): the project panel is created first and bound to the
project `p` and docked in the top area, then two viewer panels are
docked in the top area, then the tool, node and timeline panels are
docked in the bottom area.  The test code then builds a graph: a
`ViewerOutput` is constructed, attached to `viewer_panel2` (the panel
with creation index 2, the second viewer panel) and added; a
`SolidGenerator` is constructed and its texture output connected to the
viewer texture input before `AddNode(sg)`; an `ImageInput` is
constructed and added; finally the graph is handed to the node panel. -/
def ProjectOpen (p : Nat) : MainWindowState :=
  let g0 := emptyNG
  let r1 := newNode g0 NodeKind.viewerOutput
  let g2 := (AddNode r1.1 r1.2).2
  let r3 := newNode g2 (NodeKind.solidGenerator 7)
  let g4 := (ConnectEdge r3.1 r3.2 0 r1.2 0).2
  let g5 := (AddNode g4 r3.2).2
  let r6 := newNode g5 (NodeKind.imageInput false)
  let g7 := (AddNode r6.1 r6.2).2
  { panels := [(PanelKind.projectPanel, DockArea.top),
               (PanelKind.viewerPanel, DockArea.top),
               (PanelKind.viewerPanel, DockArea.top),
               (PanelKind.toolPanel, DockArea.bottom),
               (PanelKind.nodePanel, DockArea.bottom),
               (PanelKind.timelinePanel, DockArea.bottom)],
    boundProject := some p,
    attachedViewerPanel := some 2,
    nodePanelGraph := some g7 }

/-- The graph built by the test code of `ProjectOpen`: ViewerOutput id 0
(member), SolidGenerator id 1 (member) feeding the viewer texture input,
ImageInput id 2 (member). -/
def scenarioG : NodeGraph := applyOps emptyNG
  [GOp.newNode NodeKind.viewerOutput, GOp.addNode 0,
   GOp.newNode (NodeKind.solidGenerator 7), GOp.connectEdge 1 0 0 0, GOp.addNode 1]

/-- The state of the `ProjectOpen` test-code graph just before
`NodeInput::ConnectEdge(sg->texture_output(), vo->texture_input())`:
the ViewerOutput (id 0) has been added, the SolidGenerator (id 1) has
been constructed but not yet added. -/
def preConnectG : NodeGraph := applyOps emptyNG
  [GOp.newNode NodeKind.viewerOutput, GOp.addNode 0,
   GOp.newNode (NodeKind.solidGenerator 7)]

/-- Diamond dependency graph of the spec memoization scenario: node 0
is the shared generator A, nodes 1 and 2 are the filters B and C, node 3
is the two-input compositor D, with edges A to B, A to C, B to D and
C to D. -/
def diamondG : NodeGraph :=
  ⟨[(0, NodeKind.solidGenerator 5), (1, NodeKind.filter1), (2, NodeKind.filter1),
    (3, NodeKind.compositor2)], [0, 1, 2, 3],
   [⟨0, 0, 1, 0⟩, ⟨0, 0, 2, 0⟩, ⟨1, 0, 3, 0⟩, ⟨2, 0, 3, 1⟩], 4⟩

/-- A graph whose upstream node computation fails: an ImageInput with no
loaded file (id 1) feeds the ViewerOutput (id 0). -/
def failG : NodeGraph := applyOps emptyNG
  [GOp.newNode NodeKind.viewerOutput, GOp.addNode 0,
   GOp.newNode (NodeKind.imageInput false), GOp.connectEdge 1 0 0 0, GOp.addNode 1]

/-- A reachable graph on which a cycle-creating `ConnectEdge` also has
incompatible port types: a mixer (id 0, texture output, scalar second
input) feeds a filter (id 1); connecting the filter texture output back
into the mixer scalar input would close the cycle 0 to 1 to 0, but the
declared types differ. -/
def mixG : NodeGraph := applyOps emptyNG
  [GOp.newNode NodeKind.mixer, GOp.addNode 0, GOp.newNode NodeKind.filter1,
   GOp.addNode 1, GOp.connectEdge 0 0 1 0]

/-- A reachable graph on which a well-typed cycle-creating `ConnectEdge`
is attempted: two filters with an edge 0 to 1; connecting 1 back to 0
would close a cycle. -/
def twoFilterG : NodeGraph := applyOps emptyNG
  [GOp.newNode NodeKind.filter1, GOp.addNode 0, GOp.newNode NodeKind.filter1,
   GOp.addNode 1, GOp.connectEdge 0 0 1 0]

/-- A reachable graph with a scalar output and a texture input for the
plain type-mismatch scenario. -/
def mismatchG : NodeGraph := applyOps emptyNG
  [GOp.newNode (NodeKind.scalarConst 3), GOp.addNode 0,
   GOp.newNode NodeKind.viewerOutput, GOp.addNode 1]

theorem RemoveNode_unknown {s : NodeGraph} {id : Nat} (h : findNode s id = none) :
    RemoveNode s id = (.error GraphError.notFound, s) := by
  unfold RemoveNode
  rw [h]

theorem AddNode_unknown {s : NodeGraph} {id : Nat} (h : findNode s id = none) :
    AddNode s id = (.error GraphError.notFound, s) := by
  unfold AddNode
  rw [h]

theorem ConnectEdge_unknown_src {s : NodeGraph} {id sp dn dp : Nat}
    (h : findNode s id = none) :
    ConnectEdge s id sp dn dp = (.error GraphError.lookupError, s) := by
  have ho : outputPortType s id sp = none := by
    unfold outputPortType
    rw [h]
    rfl
  rcases hb : inputPortType s dn dp with _ | ty <;> simp [ConnectEdge, ho, hb]

theorem ConnectEdge_unknown_dst {s : NodeGraph} {sn sp id dp : Nat}
    (h : findNode s id = none) :
    ConnectEdge s sn sp id dp = (.error GraphError.lookupError, s) := by
  have hi : inputPortType s id dp = none := by
    unfold inputPortType
    rw [h]
    rfl
  rcases hb : outputPortType s sn sp with _ | ty <;> simp [ConnectEdge, hb, hi]

theorem DisconnectEdge_unknown {s : NodeGraph} {id dp : Nat}
    (h : findNode s id = none) :
    DisconnectEdge s id dp = (.error GraphError.lookupError, s) := by
  have hi : inputPortType s id dp = none := by
    unfold inputPortType
    rw [h]
    rfl
  unfold DisconnectEdge
  rw [hi]

theorem evalNode_unknown {s : NodeGraph} {id : Nat} (h : findNode s id = none)
    (f : Nat) : evalNode s (f + 1) emptyCtx id = .error (EvalError.unknownNode id) := by
  rw [show evalNode s (f + 1) = evalStep s (evalNode s f) from rfl]
  simp [evalStep, emptyCtx, h]

/-- Claim C1 counterexample: on the reachable graph `mixG`, the call
`ConnectEdge` for the filter output (node 1, port 0) into the mixer
scalar input (node 0, port 1) would create a cycle - the edge set
extended with the prospective edge fails the acyclicity check - yet the
call fails with TypeMismatch rather than CycleError, because the
declared port types (texture versus scalar) are incompatible and the
type check takes precedence over the cycle check. -/
theorem c1_counterexample :
    ReachableGS mixG ∧
    acyclicB (Edge.mk 1 0 0 1 :: dropInto mixG.edges 0 1) = false ∧
    (ConnectEdge mixG 1 0 0 1).1 = .error GraphError.typeMismatch ∧
    ¬ (ConnectEdge mixG 1 0 0 1).1 = .error GraphError.cycleError := by
  refine ⟨⟨[GOp.newNode NodeKind.mixer, GOp.addNode 0, GOp.newNode NodeKind.filter1,
    GOp.addNode 1, GOp.connectEdge 0 0 1 0], rfl⟩, rfl, rfl, ?_⟩
  intro hcontra
  have h1 : (ConnectEdge mixG 1 0 0 1).1 = .error GraphError.typeMismatch := rfl
  rw [h1] at hcontra
  have := Except.error.inj hcontra
  cases this

/-- Claim C1 (amended): in every reachable graph state the edge set is
acyclic, and any `ConnectEdge` call whose added edge would create a
cycle is rejected with an error and leaves the graph structurally
unchanged; the error is CycleError whenever the two ports exist with
compatible declared types (otherwise TypeMismatch or LookupError takes
precedence). -/
theorem c1_acyclic_invariant (g : NodeGraph) (sn sp dn dp : Nat)
    (hre : ReachableGS g)
    (hcyc : acyclicB (Edge.mk sn sp dn dp :: dropInto g.edges dn dp) = false) :
    Acyclic g.edges ∧
    (ConnectEdge g sn sp dn dp).2 = g ∧
    (∃ err, (ConnectEdge g sn sp dn dp).1 = .error err) ∧
    (∀ ty, outputPortType g sn sp = some ty → inputPortType g dn dp = some ty →
      (ConnectEdge g sn sp dn dp).1 = .error GraphError.cycleError) := by
  have hA : Acyclic g.edges := reachable_acyclic hre
  have hnc : ¬ Acyclic (Edge.mk sn sp dn dp :: dropInto g.edges dn dp) := by
    intro hAc
    rw [← acyclicB_iff] at hAc
    rw [hAc] at hcyc
    cases hcyc
  have hr : Reaches g.edges dn sn := would_cycle_reaches hA hnc
  have hrt : reaches g.edges dn sn = true := reaches_iff.2 hr
  rcases ConnectEdge_cases g sn sp dn dp with ⟨hok, hne, hst⟩ | ⟨⟨err, herr⟩, hst⟩
  · rw [hrt] at hne
    cases hne
  · refine ⟨hA, hst, ⟨err, herr⟩, ?_⟩
    intro ty ho hi
    simp [ConnectEdge, ho, hi, hrt]

/-- Claim C1 witness: on the reachable two-filter graph, connecting the
downstream filter back into the upstream one would create a cycle and is
rejected with CycleError, the graph unchanged. -/
theorem c1_witness :
    ReachableGS twoFilterG ∧
    acyclicB (Edge.mk 1 0 0 0 :: dropInto twoFilterG.edges 0 0) = false ∧
    (ConnectEdge twoFilterG 1 0 0 0).2 = twoFilterG ∧
    (ConnectEdge twoFilterG 1 0 0 0).1 = .error GraphError.cycleError := by
  have h := c1_acyclic_invariant twoFilterG 1 0 0 0
    ⟨[GOp.newNode NodeKind.filter1, GOp.addNode 0, GOp.newNode NodeKind.filter1,
      GOp.addNode 1, GOp.connectEdge 0 0 1 0], rfl⟩ rfl
  exact ⟨⟨[GOp.newNode NodeKind.filter1, GOp.addNode 0, GOp.newNode NodeKind.filter1,
    GOp.addNode 1, GOp.connectEdge 0 0 1 0], rfl⟩, rfl, h.2.1,
    h.2.2.2 ValueType.texture rfl rfl⟩

/-- Claim C2: every mutation operation (AddNode, RemoveNode,
ConnectEdge, DisconnectEdge) that returns an error returns it
synchronously (as the result value of the call) and leaves the graph in
exactly its prior state; an evaluation pass returning an EvaluationError
likewise leaves the graph unchanged and preserves acyclicity. -/
theorem c2_atomic_errors (g : NodeGraph) :
    (∀ id err, (AddNode g id).1 = .error err → (AddNode g id).2 = g) ∧
    (∀ id err, (RemoveNode g id).1 = .error err → (RemoveNode g id).2 = g) ∧
    (∀ sn sp dn dp err, (ConnectEdge g sn sp dn dp).1 = .error err →
      (ConnectEdge g sn sp dn dp).2 = g) ∧
    (∀ dn dp err, (DisconnectEdge g dn dp).1 = .error err →
      (DisconnectEdge g dn dp).2 = g) ∧
    (∀ fuel nid err, (runEvalPass g fuel nid).1 = .error err →
      (runEvalPass g fuel nid).2 = g ∧
      (Acyclic g.edges → Acyclic (runEvalPass g fuel nid).2.edges)) :=
  ⟨fun _ _ h => AddNode_err_state h,
   fun _ _ h => RemoveNode_err_state h,
   fun _ _ _ _ _ h => ConnectEdge_err_state h,
   fun _ _ _ h => DisconnectEdge_err_state h,
   fun fuel nid _ _ =>
     ⟨runEvalPass_state g fuel nid,
      fun hA => by rw [runEvalPass_state]; exact hA⟩⟩

/-- Claim C2 witness: concrete erroring calls on the empty graph leave
it unchanged. -/
theorem c2_witness :
    (AddNode emptyNG 0).2 = emptyNG ∧ (RemoveNode emptyNG 0).2 = emptyNG ∧
    (ConnectEdge emptyNG 0 0 1 0).2 = emptyNG ∧
    (DisconnectEdge emptyNG 0 0).2 = emptyNG ∧
    (runEvalPass emptyNG 5 0).2 = emptyNG :=
  ⟨(c2_atomic_errors emptyNG).1 0 GraphError.notFound rfl,
   (c2_atomic_errors emptyNG).2.1 0 GraphError.notFound rfl,
   (c2_atomic_errors emptyNG).2.2.1 0 0 1 0 GraphError.lookupError rfl,
   (c2_atomic_errors emptyNG).2.2.2.1 0 0 GraphError.lookupError rfl,
   ((c2_atomic_errors emptyNG).2.2.2.2 5 0 (EvalError.unknownNode 0) rfl).1⟩

/-- Claim C3: on every well-formed acyclic graph, a successful
evaluation pass started with an empty context invokes each node
computation at most once (the invocation log has no duplicate and each
node counts at most once), and the set of invoked nodes is exactly the
set of nodes backward-reachable from the target along edges - the
minimal upstream set. -/
theorem c3_memoized_minimal {g : NodeGraph} {F nid : Nat} {ctx : EvalCtx}
    {vals : List Value}
    (hwf : wellFormedB g = true) (hac : acyclicB g.edges = true)
    (h : evalNode g F emptyCtx nid = .ok (ctx, vals)) :
    (∀ n, ctx.log.count n ≤ 1) ∧ (∀ n, n ∈ ctx.log ↔ Reaches g.edges n nid) := by
  obtain ⟨hnd, hiff⟩ := evalNode_pass_log (wellFormedB_iff.1 hwf) (acyclicB_iff.1 hac) h
  exact ⟨fun n => List.nodup_iff_count_le_one.1 hnd n, hiff⟩

/-- Claim C3 witness: on the diamond graph (A feeds B and C, which feed
D) evaluating D invokes A (node 0) exactly once - the log is
[0, 1, 2, 3]. -/
theorem c3_witness :
    wellFormedB diamondG = true ∧ acyclicB diamondG.edges = true ∧
    evalNode diamondG 10 emptyCtx 3 =
      .ok (⟨[(3, [Value.texture 12]), (2, [Value.texture 6]), (1, [Value.texture 6]),
             (0, [Value.texture 5])], [0, 1, 2, 3]⟩, [Value.texture 12]) ∧
    ([0, 1, 2, 3] : List Nat).count 0 = 1 ∧
    (0 ∈ ([0, 1, 2, 3] : List Nat) ↔ Reaches diamondG.edges 0 3) := by
  have h := @c3_memoized_minimal diamondG 10 3 _ _ rfl rfl rfl
  exact ⟨rfl, rfl, rfl, rfl, h.2 0⟩

/-- Claim C4: whenever an evaluation pass fails with an EvaluationError
of the node-computation-failed kind, the reported node id is a node
whose computation genuinely fails with the reported cause, that node is
upstream of (backward-reachable from) the requested target, the pass
delivers exactly that error to the requester, and no result value is
delivered (no default is substituted). -/
theorem c4_failure_propagates {g : NodeGraph} {f nid m : Nat} {c : RunError}
    (h : evalNode g f emptyCtx nid = .error (EvalError.nodeFailed m c)) :
    NodeFails g m c ∧ Reaches g.edges m nid ∧
    (runEvalPass g f nid).1 = .error (EvalError.nodeFailed m c) ∧
    (∀ r, ¬ (runEvalPass g f nid).1 = .ok r) := by
  obtain ⟨h1, h2⟩ := evalNode_err_nodeFailed f emptyCtx nid m c h
  refine ⟨h1, h2, ?_, ?_⟩
  · unfold runEvalPass
    rw [h]
  · intro r hr
    unfold runEvalPass at hr
    rw [h] at hr
    cases hr

/-- Claim C4 witness: in `failG` the ImageInput (node 1) has no loaded
file; evaluating the ViewerOutput (node 0) aborts with an
EvaluationError identifying node 1 and its malformed-input cause. -/
theorem c4_witness :
    evalNode failG 10 emptyCtx 0 =
      .error (EvalError.nodeFailed 1 RunError.malformedInput) ∧
    NodeFails failG 1 RunError.malformedInput ∧ Reaches failG.edges 1 0 ∧
    (runEvalPass failG 10 0).1 =
      .error (EvalError.nodeFailed 1 RunError.malformedInput) := by
  have h := @c4_failure_propagates failG 10 0 1 RunError.malformedInput rfl
  exact ⟨rfl, h.1, h.2.1, h.2.2.1⟩

/-- Claim C5: in every reachable graph state every input port has at
most one incoming edge, and a successful
`ConnectEdge(outputPort, inputPort)` leaves the destination input port
with exactly one incoming edge, the new one from the given output
port (any prior edge into that port is replaced). -/
theorem c5_unique_incoming_edge {g : NodeGraph} (hre : ReachableGS g) :
    (∀ dn dp, (edgesInto g.edges dn dp).length ≤ 1) ∧
    (∀ sn sp dn dp, (ConnectEdge g sn sp dn dp).1 = .ok () →
      edgesInto (ConnectEdge g sn sp dn dp).2.edges dn dp = [⟨sn, sp, dn, dp⟩]) :=
  ⟨reachable_atMostOne hre, fun _ _ _ _ h => ConnectEdge_ok_edgesInto h⟩

/-- Claim C5 witness: the scenario graph satisfies the at-most-one
invariant at the viewer input, and the successful connect into it yields
exactly the one new edge. -/
theorem c5_witness :
    (edgesInto scenarioG.edges 0 0).length ≤ 1 ∧
    edgesInto (ConnectEdge preConnectG 1 0 0 0).2.edges 0 0 = [⟨1, 0, 0, 0⟩] := by
  have h1 := (@c5_unique_incoming_edge scenarioG
    ⟨[GOp.newNode NodeKind.viewerOutput, GOp.addNode 0,
      GOp.newNode (NodeKind.solidGenerator 7), GOp.connectEdge 1 0 0 0,
      GOp.addNode 1], rfl⟩).1 0 0
  have h2 := (@c5_unique_incoming_edge preConnectG
    ⟨[GOp.newNode NodeKind.viewerOutput, GOp.addNode 0,
      GOp.newNode (NodeKind.solidGenerator 7)], rfl⟩).2 1 0 0 0 rfl
  exact ⟨h1, h2⟩

/-- Claim C6: whenever both ports exist and their declared value types
differ, `ConnectEdge` fails with TypeMismatch and returns the graph
completely unmodified (no edge is added, the whole edge set and all
ports are untouched). -/
theorem c6_type_mismatch {g : NodeGraph} {sn sp dn dp : Nat} {tyo tyi : ValueType}
    (ho : outputPortType g sn sp = some tyo) (hi : inputPortType g dn dp = some tyi)
    (hne : ¬ tyo = tyi) :
    ConnectEdge g sn sp dn dp = (.error GraphError.typeMismatch, g) := by
  simp [ConnectEdge, ho, hi, hne]

/-- Claim C6 witness: connecting a scalar output to a texture input on
`mismatchG` fails with TypeMismatch and leaves the graph unchanged. -/
theorem c6_witness :
    outputPortType mismatchG 0 0 = some ValueType.scalar ∧
    inputPortType mismatchG 1 0 = some ValueType.texture ∧
    ConnectEdge mismatchG 0 0 1 0 = (.error GraphError.typeMismatch, mismatchG) := by
  refine ⟨rfl, rfl, c6_type_mismatch rfl rfl ?_⟩
  decide

/-- Claim C7: removing an existing node removes it and every edge
incident to any of its ports (no dangling edges), leaves all other
nodes in place, and afterwards every operation referencing the removed
id fails with a NotFound or LookupError class error: RemoveNode and
AddNode return NotFound, ConnectEdge (as source or destination) and
DisconnectEdge return LookupError, and evaluation reports an
unknown-node error; removing an unknown id consistently returns NotFound
and leaves the graph unchanged. -/
theorem c7_remove_node {g : NodeGraph} {id : Nat} {k : NodeKind}
    (h : findNode g id = some k) :
    findNode (RemoveNode g id).2 id = none ∧
    (∀ e ∈ (RemoveNode g id).2.edges, ¬ e.srcNode = id ∧ ¬ e.dstNode = id) ∧
    (∀ j, ¬ j = id → findNode (RemoveNode g id).2 j = findNode g j) ∧
    RemoveNode (RemoveNode g id).2 id =
      (.error GraphError.notFound, (RemoveNode g id).2) ∧
    AddNode (RemoveNode g id).2 id =
      (.error GraphError.notFound, (RemoveNode g id).2) ∧
    (∀ sp dn dp, ConnectEdge (RemoveNode g id).2 id sp dn dp =
      (.error GraphError.lookupError, (RemoveNode g id).2)) ∧
    (∀ sn sp dp, ConnectEdge (RemoveNode g id).2 sn sp id dp =
      (.error GraphError.lookupError, (RemoveNode g id).2)) ∧
    (∀ dp, DisconnectEdge (RemoveNode g id).2 id dp =
      (.error GraphError.lookupError, (RemoveNode g id).2)) ∧
    (∀ f, evalNode (RemoveNode g id).2 (f + 1) emptyCtx id =
      .error (EvalError.unknownNode id)) := by
  have hnone := findNode_RemoveNode_self h
  refine ⟨hnone, ?_, fun j hj => findNode_RemoveNode_other h hj,
    RemoveNode_unknown hnone, AddNode_unknown hnone,
    fun sp dn dp => ConnectEdge_unknown_src hnone,
    fun sn sp dp => ConnectEdge_unknown_dst hnone,
    fun dp => DisconnectEdge_unknown hnone,
    fun f => evalNode_unknown hnone f⟩
  intro e he
  rw [RemoveNode_state h] at he
  have := (List.mem_filter.1 he).2
  simpa using this

/-- Claim C7 witness: removing the SolidGenerator (id 1) from the
scenario graph removes its node and its edge; re-removal and re-adding
report NotFound, connecting to or from it reports LookupError, and
evaluating it reports an unknown-node error. -/
theorem c7_witness :
    findNode (RemoveNode scenarioG 1).2 1 = none ∧
    (RemoveNode scenarioG 1).2.edges = [] ∧
    RemoveNode (RemoveNode scenarioG 1).2 1 =
      (.error GraphError.notFound, (RemoveNode scenarioG 1).2) ∧
    ConnectEdge (RemoveNode scenarioG 1).2 1 0 0 0 =
      (.error GraphError.lookupError, (RemoveNode scenarioG 1).2) ∧
    evalNode (RemoveNode scenarioG 1).2 10 emptyCtx 1 =
      .error (EvalError.unknownNode 1) := by
  have h := @c7_remove_node scenarioG 1 (NodeKind.solidGenerator 7) rfl
  exact ⟨h.1, rfl, h.2.2.2.1, h.2.2.2.2.2.1 0 0 0, h.2.2.2.2.2.2.2.2 9⟩

/-- Claim C8: in the `ProjectOpen` test graph (SolidGenerator id 1
connected into ViewerOutput id 0), evaluating the viewer returns
exactly the texture computed by the SolidGenerator computation; after
`RemoveNode` of the generator succeeds, re-evaluating the viewer fails
with the evaluation-time lookup error for its now-unconnected input
(which has no default literal) instead of returning a value. -/
theorem c8_solid_viewer_scenario :
    findNode scenarioG 1 = some (NodeKind.solidGenerator 7) ∧
    findNode scenarioG 0 = some NodeKind.viewerOutput ∧
    NodeKind.run (NodeKind.solidGenerator 7) [] = .ok [Value.texture 7] ∧
    evalNode scenarioG 10 emptyCtx 0 =
      .ok (⟨[(0, [Value.texture 7]), (1, [Value.texture 7])], [1, 0]⟩,
        [Value.texture 7]) ∧
    (RemoveNode scenarioG 1).1 = .ok () ∧
    evalNode (RemoveNode scenarioG 1).2 10 emptyCtx 0 =
      .error (EvalError.missingInput 0 0) :=
  ⟨rfl, rfl, rfl, rfl, rfl, rfl⟩

/-- Claim C9: in the `ProjectOpen` sequence the SolidGenerator (id 1)
has been constructed but not yet added to the graph when
`NodeInput::ConnectEdge` is called, and the connection nevertheless
succeeds and records the edge; adding the node afterwards succeeds as
in the source. -/
theorem c9_connect_before_membership :
    ¬ 1 ∈ preConnectG.members ∧
    findNode preConnectG 1 = some (NodeKind.solidGenerator 7) ∧
    (ConnectEdge preConnectG 1 0 0 0).1 = .ok () ∧
    (ConnectEdge preConnectG 1 0 0 0).2.edges = [⟨1, 0, 0, 0⟩] ∧
    (AddNode (ConnectEdge preConnectG 1 0 0 0).2 1).1 = .ok () := by
  refine ⟨?_, rfl, rfl, rfl, rfl⟩
  decide

/-- Claim C10: `MainWindow::ProjectOpen(p)` creates exactly six dock
panels - the project panel (bound to `p`) and two viewer panels in the
top dock area, and the tool, node and timeline panels in the bottom dock
area - and the test ViewerOutput is attached to the second viewer panel
(creation index 2), not the first (creation index 1). -/
theorem c10_project_open_layout (p : Nat) :
    (ProjectOpen p).panels.length = 6 ∧
    (ProjectOpen p).panels =
      [(PanelKind.projectPanel, DockArea.top),
       (PanelKind.viewerPanel, DockArea.top),
       (PanelKind.viewerPanel, DockArea.top),
       (PanelKind.toolPanel, DockArea.bottom),
       (PanelKind.nodePanel, DockArea.bottom),
       (PanelKind.timelinePanel, DockArea.bottom)] ∧
    (ProjectOpen p).boundProject = some p ∧
    (ProjectOpen p).attachedViewerPanel = some 2 ∧
    (ProjectOpen p).panels.get? 2 = some (PanelKind.viewerPanel, DockArea.top) ∧
    (ProjectOpen p).panels.get? 1 = some (PanelKind.viewerPanel, DockArea.top) ∧
    ¬ (ProjectOpen p).attachedViewerPanel = some 1 := by
  refine ⟨rfl, rfl, rfl, rfl, rfl, rfl, ?_⟩
  intro h
  have := Option.some.inj h
  cases this
